import Mathlib

/-!
Verification development for the quail workflow-orchestration core
(`quail/core.py`): registries, decorators (`qtask` / `qcheck`), the
DFS dependency resolver (`Runner._topo`) and the executor (`Runner.run`).

The Python source is shallowly embedded:
* Python `dict` (insertion ordered, last assignment wins, position of an
  existing key preserved on overwrite) is an association list with `dictPut`
  and `dlookup`.
* `time.time()` is a strictly increasing positive clock on `Nat`: each call
  returns `c + 1` given the previous counter `c`.  Only monotonicity and
  truthiness (positivity) of the returned values are used.
* Python truthiness-based defaulting (`x or y`) is made explicit: `0` is
  falsy for numbers, `""` for strings, `None` for optionals.
* exceptions are `Except String` values, carrying `str(e)`.
* node callables are pure functions of the context and the clock, as the
  design requires (`ExecutionContext → TaskOutput | CheckResult`); they may
  consume clock ticks and may raise.
* executed user callables are recorded in a ghost `trace : List String`
  (one entry per actual invocation of an undecorated `fn`), an observation
  used to state memoization / abort claims; it alters no computation.
* progress output (`_say` / `print`) is modelled as an append-only list of
  structured `LogMsg` values rather than formatted text.
-/

namespace Quail

/-- Model of `time.time()`: from clock counter `c`, the call returns the
strictly larger positive value `c + 1`, which is also the next counter. -/
def tick (c : Nat) : Nat × Nat := (c + 1, c + 1)

/-- Python `x or y` for numbers (`0` and `None` are falsy; timestamps are
already numbers here, so only `0` is falsy). -/
def pyOrNat (x y : Nat) : Nat := if x = 0 then y else x

/-- Python `x or y` for strings (`""` is falsy). -/
def pyOrStr (x y : String) : String := if x = "" then y else x

/-- Python `x or time.time()`: the clock is consulted (and advanced) only
when `x` is falsy, because `or` short-circuits. -/
def pyOrTime (x : Nat) (c : Nat) : Nat × Nat :=
  if x = 0 then tick c else (x, c)

/-- Python `x or time.time()` where `x` may also be `None`
(default arguments of `CheckResult.__init__`). -/
def pyOptOrTime (x : Option Nat) (c : Nat) : Nat × Nat :=
  match x with
  | none => tick c
  | some v => pyOrTime v c

/-- Python dict assignment `d[k] = v`: replace in place when the key is
present (keeping its position), append otherwise. -/
def dictPut {α : Type} : List (String × α) → String → α → List (String × α)
  | [], k, v => [(k, v)]
  | (k', v') :: rest, k, v =>
    if k' = k then (k, v) :: rest else (k', v') :: dictPut rest k v

/-- Python dict lookup `d[k]` / `d.get(k)` (first binding wins). -/
def dlookup {α : Type} : List (String × α) → String → Option α
  | [], _ => none
  | (k', v) :: rest, k => if k' = k then some v else dlookup rest k

/-- Python `{**a, **b}`: start from `a` and assign every binding of `b`. -/
def mergeDicts {α : Type} (a b : List (String × α)) : List (String × α) :=
  List.foldl (fun acc kv => dictPut acc kv.1 kv.2) a b

/-- Per-field record of a `CheckResult`, parametric in the metrics type to
allow the nested recursion with `Value` below. -/
structure CheckResultF (M : Type) where
  id : String
  status : String
  severity : String
  metrics : M
  description : Option String
  error : Option String
  started_at : Nat
  finished_at : Nat

/-- Dynamically typed Python values that flow through the context and the
result map: strings, integers, booleans, `None`, dicts, and `CheckResult`
objects. -/
inductive Value : Type where
  | vstr (s : String)
  | vint (n : Int)
  | vbool (b : Bool)
  | vnone
  | vdict (entries : List (String × Value))
  | vcheck (r : CheckResultF (List (String × Value)))

/-- The `CheckResult` value type of `quail/core.py` (metrics are a dict of
dynamic values). -/
abbrev CheckResult := CheckResultF (List (String × Value))

/-- `CheckResult.__init__`: `metrics or {}` collapses `None` and `{}` to the
empty dict (so the dict argument is taken directly); unset or falsy
timestamps default to `time.time()` at construction, started first. -/
def CheckResult.init (id status severity : String)
    (metrics : List (String × Value)) (description error : Option String)
    (started_at finished_at : Option Nat) (c : Nat) : CheckResult × Nat :=
  let (s, c) := pyOptOrTime started_at c
  let (f, c) := pyOptOrTime finished_at c
  ({ id := id, status := status, severity := severity, metrics := metrics,
     description := description, error := error,
     started_at := s, finished_at := f }, c)

/-- `QContext`: read-only `env` / `params`, the mutable `artifacts` store,
and `workdir`. -/
structure QContext where
  env : List (String × Value)
  params : List (String × Value)
  artifacts : List (String × Value)
  workdir : String

/-- `QContext.put`: unconditional overwrite of `artifacts[k]`. -/
def QContext.put (ctx : QContext) (k : String) (v : Value) : QContext :=
  { ctx with artifacts := dictPut ctx.artifacts k v }

/-- `QContext.get` with an optional default (Python default `None`). -/
def QContext.get (ctx : QContext) (k : String)
    (default : Value := Value.vnone) : Value :=
  match dlookup ctx.artifacts k with
  | some v => v
  | none => default

/-- `QContext.has`: membership test on the artifact store. -/
def QContext.has (ctx : QContext) (k : String) : Bool :=
  (dlookup ctx.artifacts k).isSome

/-- A task callable: context and clock in, new clock and either a value or a
raised exception message out. -/
def TaskFn : Type := QContext → Nat → Nat × Except String Value

/-- A check callable: like a task callable, but returns a `CheckResult`. -/
def CheckFn : Type := QContext → Nat → Nat × Except String CheckResult

/-- The behavioural payload of a registered node; `check` carries the
declared severity from `__qmeta__`. -/
inductive NodeFn : Type where
  | task (f : TaskFn)
  | check (severity : String) (f : CheckFn)

/-- A registered node: the resolved id `rid`, `__qmeta__["requires"]`, and
the wrapped callable. -/
structure Node where
  id : String
  requires : List String
  fn : NodeFn

/-- The global registries `_TASKS` / `_CHECKS`. -/
structure Registry where
  tasks : List (String × Node)
  checks : List (String × Node)

/-- The empty pair of registries. -/
def Registry.empty : Registry := { tasks := [], checks := [] }

/-- `rid = id or fn.__name__` (an absent or empty decorator id falls back to
the function name). -/
def ridOf (id : Option String) (name : String) : String :=
  match id with
  | none => name
  | some s => pyOrStr s name

/-- Registration side of `qtask`: `_TASKS[rid] = wrapper`
(plain dict assignment — an existing id is overwritten). -/
def qtask_register (id : Option String) (requires : List String)
    (name : String) (f : TaskFn) (reg : Registry) : Registry :=
  let rid := ridOf id name
  { reg with tasks := dictPut reg.tasks rid ⟨rid, requires, NodeFn.task f⟩ }

/-- Registration side of `qcheck`: `_CHECKS[rid] = wrapper`
(plain dict assignment — an existing id is overwritten). -/
def qcheck_register (id : Option String) (requires : List String)
    (severity : String) (name : String) (f : CheckFn) (reg : Registry) :
    Registry :=
  let rid := ridOf id name
  { reg with
    checks := dictPut reg.checks rid ⟨rid, requires, NodeFn.check severity f⟩ }

/-- Output of the `qtask` wrapper: possibly updated context, clock, ghost
invocation trace, and the returned value or the propagating exception. -/
structure TaskWrapOut where
  ctx : QContext
  clock : Nat
  trace : List String
  val : Except String Value

/-- The wrapper closure built by `qtask`'s `deco`: if `ctx.has(rid)` the
cached artifact is returned without invoking `fn` (memoization); otherwise
`fn` runs (recorded in the trace), its result is stored under `rid`, a dict
result is additionally merged key by key, and exceptions propagate. -/
def taskWrapper (rid : String) (f : TaskFn) (ctx : QContext) (c : Nat)
    (trace : List String) : TaskWrapOut :=
  if ctx.has rid then
    { ctx := ctx, clock := c, trace := trace, val := Except.ok (ctx.get rid) }
  else
    let trace := trace ++ [rid]
    match f ctx c with
    | (c, Except.error e) =>
      { ctx := ctx, clock := c, trace := trace, val := Except.error e }
    | (c, Except.ok result) =>
      let ctx := ctx.put rid result
      let ctx :=
        match result with
        | Value.vdict entries =>
          List.foldl (fun acc kv => QContext.put acc kv.1 kv.2) ctx entries
        | _ => ctx
      { ctx := ctx, clock := c, trace := trace, val := Except.ok result }

/-- Output of the `qcheck` wrapper: it never raises, it always yields a
`CheckResult`. -/
structure CheckWrapOut where
  ctx : QContext
  clock : Nat
  trace : List String
  res : CheckResult

/-- The wrapper closure built by `qcheck`'s `deco`: take `start`, invoke
`fn` (recorded in the trace); on normal return default unset timing and
`id` / `severity` fields with `or` and cache the result under `rid`; on an
exception build an error `CheckResult` with the declared severity and the
exception message and cache it.  In both cases the result is returned. -/
def checkWrapper (rid severity : String) (f : CheckFn) (ctx : QContext)
    (c : Nat) (trace : List String) : CheckWrapOut :=
  let (start, c) := tick c
  let trace := trace ++ [rid]
  match f ctx c with
  | (c, Except.ok res) =>
    let res := { res with started_at := pyOrNat res.started_at start }
    let (fin, c) := pyOrTime res.finished_at c
    let res := { res with finished_at := fin }
    let res := { res with id := pyOrStr res.id rid }
    let res := { res with severity := pyOrStr res.severity severity }
    { ctx := ctx.put rid (Value.vcheck res), clock := c, trace := trace,
      res := res }
  | (c, Except.error e) =>
    let (fin, c) := tick c
    let (err, c) := CheckResult.init rid "error" severity [] none (some e)
      (some start) (some fin) c
    { ctx := ctx.put rid (Value.vcheck err), clock := c, trace := trace,
      res := err }

/-- `_short`: truncate the printed form of a value at 80 characters. -/
def shortStr (s : String) : String :=
  if s.length ≤ 80 then s else s.take 77 ++ "..."

/-- Resolution errors raised by `Runner._topo` (`KeyError` in the source),
plus the `fuelOut` marker standing for the unbounded recursion the source
exhibits on cyclic graphs. -/
inductive TopoErr : Type where
  | unknownTarget (t : String)
  | unknownDependency (missing requiredBy : String)
  | fuelOut
deriving DecidableEq, Repr

/-- State threaded through the DFS: the `seen` set (as a list) and the
post-order output `out`. -/
structure TopoState where
  seen : List String
  out : List String

/-- The combined task/check graph `{**_TASKS, **_CHECKS}` keyed by id. -/
abbrev Graph := List (String × Node)

/-- The loop body `for d in graph[n].requires` of `visit`: raise if a
dependency is unregistered, otherwise recurse through `vis` (the
fuel-instantiated `visit`). -/
def visitReqs (g : Graph)
    (vis : String → TopoState → Except TopoErr TopoState)
    (n : String) : List String → TopoState → Except TopoErr TopoState
  | [], st => Except.ok st
  | d :: ds, st =>
    if (dlookup g d).isSome then
      match vis d st with
      | Except.error e => Except.error e
      | Except.ok st' => visitReqs g vis n ds st'
    else
      Except.error (TopoErr.unknownDependency d n)

/-- `visit` of `Runner._topo`, with explicit fuel standing for the source's
unbounded recursion depth: return at once if `n` was seen, else visit the
requirements in declaration order, then mark `n` seen and append it. -/
def visit (g : Graph) : Nat → String → TopoState → Except TopoErr TopoState
  | 0, _, _ => Except.error TopoErr.fuelOut
  | fuel + 1, n, st =>
    if n ∈ st.seen then Except.ok st
    else
      match dlookup g n with
      | none => Except.error (TopoErr.unknownTarget n)
      | some node =>
        match visitReqs g (visit g fuel) n node.requires st with
        | Except.error e => Except.error e
        | Except.ok st' =>
          Except.ok { seen := n :: st'.seen, out := st'.out ++ [n] }

/-- The driver loop of `_topo`: each target must be registered and is then
visited, in request order. -/
def topoTargets (g : Graph)
    (vis : String → TopoState → Except TopoErr TopoState) :
    List String → TopoState → Except TopoErr TopoState
  | [], st => Except.ok st
  | t :: ts, st =>
    if (dlookup g t).isSome then
      match vis t st with
      | Except.error e => Except.error e
      | Except.ok st' => topoTargets g vis ts st'
    else
      Except.error (TopoErr.unknownTarget t)

/-- `Runner._topo`: DFS-based topological order over the combined graph.
The fuel `g.length + 1` is ample for every acyclic graph; exhausting it
(`fuelOut`) models the source's unbounded recursion on cycles. -/
def topo (g : Graph) (targets : List String) : Except TopoErr (List String) :=
  match topoTargets g (visit g (g.length + 1)) targets ⟨[], []⟩ with
  | Except.error e => Except.error e
  | Except.ok st => Except.ok st.out

/-- Either component of a `results[n] = (kind, value)` entry: raw task
output or a check's `CheckResult`. -/
inductive RunVal : Type where
  | task (v : Value)
  | check (r : CheckResult)

/-- One row of the run summary table:
`(name, type, status, severity, time_ms)`. -/
structure SummaryRow where
  name : String
  kind : String
  status : String
  severity : String
  ms : Nat

/-- The `check_tally` counters. -/
structure Tally where
  pass : Nat
  fail : Nat
  skip : Nat
  error : Nat
deriving DecidableEq, Repr

/-- `check_tally[res.status if res.status in check_tally else "error"] += 1`:
a status outside the four keys bumps the `error` bucket. -/
def Tally.bump (t : Tally) (status : String) : Tally :=
  if status = "pass" then { t with pass := t.pass + 1 }
  else if status = "fail" then { t with fail := t.fail + 1 }
  else if status = "skip" then { t with skip := t.skip + 1 }
  else { t with error := t.error + 1 }

/-- The badge chosen for a check's progress line (text of the source's
emoji badges). -/
def badgeOf (status : String) : String :=
  if status = "pass" then "PASS"
  else if status = "fail" then "FAIL"
  else if status = "skip" then "SKIP"
  else "ERROR"

/-- Structured stand-ins for the `_say` progress lines. -/
inductive LogMsg : Type where
  | parallelWarning
  | running (n : String) (kind : String)
  | taskDone (n : String) (dtMs : Nat)
  | checkDone (badge : String) (n : String) (severity : String) (dtMs : Nat)
      (metricsShown : List (String × Value))
  | summary (tasksRun : Nat) (tally : Tally) (rows : List SummaryRow)

/-- `_say`: emit the message only when progress output is enabled. -/
def say (progress : Bool) (m : LogMsg) : List LogMsg :=
  if progress then [m] else []

/-- State threaded through the execution loop of `Runner.run`. -/
structure ExecState where
  ctx : QContext
  results : List (String × RunVal)
  rows : List SummaryRow
  tally : Tally
  tasksRun : Nat
  clock : Nat
  trace : List String

/-- One iteration of the `for n in order` loop of `Runner.run`: look the
node up, dispatch on its kind, run it and record results / summary data.
The third component carries the message of a propagating exception (a task
callable raising, or the unreachable `graph[n]` miss). -/
def execNode (progress : Bool) (g : Graph) (n : String) (st : ExecState) :
    ExecState × List LogMsg × Option String :=
    match dlookup g n with
    | none => (st, [], some ("KeyError: " ++ n))
    | some node =>
      match node.fn with
      | NodeFn.task f =>
        let log1 := say progress (LogMsg.running n "task")
        let (t0, c) := tick st.clock
        let w := taskWrapper node.id f st.ctx c st.trace
        match w.val with
        | Except.error e =>
          ({ st with ctx := w.ctx, clock := w.clock, trace := w.trace },
            log1, some e)
        | Except.ok v =>
          let (t1, c2) := tick w.clock
          let dt := (t1 - t0) * 1000
          let log2 := say progress (LogMsg.taskDone n dt)
          let st' := { st with
            ctx := w.ctx
            clock := c2
            trace := w.trace
            results := st.results ++ [(n, RunVal.task v)]
            tasksRun := st.tasksRun + 1
            rows := st.rows ++ [⟨n, "task", "done", "-", dt⟩] }
          (st', log1 ++ log2, none)
      | NodeFn.check sev f =>
        let log1 := say progress (LogMsg.running n "check")
        let (startWall, c) := tick st.clock
        let w := checkWrapper node.id sev f st.ctx c st.trace
        -- `results[n] = ("check", res)` happens before the stamping below,
        -- but both `results[n]` and `ctx[rid]` alias the object being
        -- stamped in place, so the stamped result is what both carry.
        let res := { w.res with
                     started_at := pyOrNat w.res.started_at startWall }
        let (fin, c2) := pyOrTime res.finished_at w.clock
        let res := { res with finished_at := fin }
        let ctx2 := w.ctx.put node.id (Value.vcheck res)
        let dt := (res.finished_at - res.started_at) * 1000
        let log2 := say progress
          (LogMsg.checkDone (badgeOf res.status) n res.severity dt
            (res.metrics.take 2))
        let st' := { st with
          ctx := ctx2
          clock := c2
          trace := w.trace
          results := st.results ++ [(n, RunVal.check res)]
          tally := st.tally.bump res.status
          rows := st.rows ++ [⟨n, "check", res.status, res.severity, dt⟩] }
        (st', log1 ++ log2, none)

/-- The `for n in order` loop of `Runner.run`: run the nodes in order; a
propagating exception aborts the loop at once (later nodes never run). -/
def runNodes (progress : Bool) (g : Graph) :
    List String → ExecState → ExecState × List LogMsg × Option String
  | [], st => (st, [], none)
  | n :: rest, st =>
    match execNode progress g n st with
    | (st1, log1, some e) => (st1, log1, some e)
    | (st1, log1, none) =>
      let (st2, log2, err) := runNodes progress g rest st1
      (st2, log1 ++ log2, err)

/-- `graph = {**_TASKS, **_CHECKS}`: the combined namespace handed to the
resolver and the loop (a check shadows a task with the same id). -/
def Registry.graph (reg : Registry) : Graph :=
  mergeDicts reg.tasks reg.checks

/-- Errors escaping `Runner.run`: resolution failures from `_topo`, or an
exception propagating from the node loop. -/
inductive RunErr : Type where
  | resolve (e : TopoErr)
  | raised (msg : String)

/-- Everything a successful run surfaces (the result map, plus the summary
data and final context as observations). -/
structure RunOut where
  results : List (String × RunVal)
  ctx : QContext
  tally : Tally
  rows : List SummaryRow
  tasksRun : Nat
  clock : Nat

/-- A run's observable outcome: emitted log, ghost invocation trace, and
either the surfaced output or the escaping error. -/
structure RunResult where
  log : List LogMsg
  trace : List String
  out : Except RunErr RunOut

/-- The `Runner`'s constructor fields (stream is subsumed by the structured
log). -/
structure Runner where
  env : List (String × Value)
  params : List (String × Value)
  workdir : String := ".quail"
  max_workers : Nat := 8
  progress : Bool := true

/-- The fresh `QContext` and loop state built inside `Runner.run` after
resolution succeeds. -/
def initExecState (r : Runner) (c0 : Nat) : ExecState :=
  { ctx := { env := r.env, params := r.params, artifacts := [],
             workdir := r.workdir },
    results := [], rows := [], tally := ⟨0, 0, 0, 0⟩, tasksRun := 0,
    clock := c0, trace := [] }

/-- `Runner.run`: warn if `parallel` was requested, merge the registries,
resolve the order, create the context, execute the order sequentially and
finish with the summary block.  Resolution happens before the context is
created; a propagating exception aborts the loop and escapes. -/
def Runner.run (r : Runner) (reg : Registry) (targets : List String)
    (parallel : Bool) (c0 : Nat) : RunResult :=
  let warnLog := if parallel then say r.progress LogMsg.parallelWarning
                 else []
  let g := reg.graph
  match topo g targets with
  | Except.error e =>
    { log := warnLog, trace := [], out := Except.error (RunErr.resolve e) }
  | Except.ok order =>
    match runNodes r.progress g order (initExecState r c0) with
    | (st, logB, some msg) =>
      { log := warnLog ++ logB, trace := st.trace,
        out := Except.error (RunErr.raised msg) }
    | (st, logB, none) =>
      let logS := say r.progress (LogMsg.summary st.tasksRun st.tally st.rows)
      { log := warnLog ++ logB ++ logS, trace := st.trace,
        out := Except.ok { results := st.results, ctx := st.ctx,
                           tally := st.tally, rows := st.rows,
                           tasksRun := st.tasksRun, clock := st.clock } }

/-- Result-map entry of a finished run (empty map when the run failed). -/
def RunResult.resultsOf (rr : RunResult) : List (String × RunVal) :=
  match rr.out with
  | Except.ok o => o.results
  | Except.error _ => []

/-- Status of the surfaced `CheckResult` for node `n`, when there is one. -/
def RunResult.statusOf (rr : RunResult) (n : String) : Option String :=
  match dlookup rr.resultsOf n with
  | some (RunVal.check r) => some r.status
  | _ => none

/-- Id field of the surfaced `CheckResult` for node `n`. -/
def RunResult.cidOf (rr : RunResult) (n : String) : Option String :=
  match dlookup rr.resultsOf n with
  | some (RunVal.check r) => some r.id
  | _ => none

/-- Severity of the surfaced `CheckResult` for node `n`. -/
def RunResult.severityOf (rr : RunResult) (n : String) : Option String :=
  match dlookup rr.resultsOf n with
  | some (RunVal.check r) => some r.severity
  | _ => none

/-- Error message of the surfaced `CheckResult` for node `n`. -/
def RunResult.errMsgOf (rr : RunResult) (n : String) : Option String :=
  match dlookup rr.resultsOf n with
  | some (RunVal.check r) => r.error
  | _ => none

/-- `started_at` of the surfaced `CheckResult` for node `n`. -/
def RunResult.startedOf (rr : RunResult) (n : String) : Option Nat :=
  match dlookup rr.resultsOf n with
  | some (RunVal.check r) => some r.started_at
  | _ => none

/-- `finished_at` of the surfaced `CheckResult` for node `n`. -/
def RunResult.finishedOf (rr : RunResult) (n : String) : Option Nat :=
  match dlookup rr.resultsOf n with
  | some (RunVal.check r) => some r.finished_at
  | _ => none

/-- Final tally of a finished run. -/
def RunResult.tallyOf (rr : RunResult) : Option Tally :=
  match rr.out with
  | Except.ok o => some o.tally
  | Except.error _ => none

/-- Whether the final context of a finished run holds an artifact for `n`. -/
def RunResult.ctxHas (rr : RunResult) (n : String) : Option Bool :=
  match rr.out with
  | Except.ok o => some (o.ctx.has n)
  | Except.error _ => none

/-! Basic dictionary lemmas. -/

theorem dlookup_dictPut_self {α : Type} (d : List (String × α)) (k : String)
    (v : α) : dlookup (dictPut d k v) k = some v := by
  induction d with
  | nil => simp [dictPut, dlookup]
  | cons hd tl ih =>
    by_cases h : hd.1 = k
    · simp [dictPut, h, dlookup]
    · cases hd with
      | mk k' v' =>
        simp only at h
        simp [dictPut, h, dlookup, ih]

/-! Shared concrete fixtures for the claim witnesses. -/

/-- A runner with empty environment and parameters, defaults elsewhere. -/
def runner0 : Runner := { env := [], params := [] }

/-- An empty execution context. -/
def ctx0 : QContext := ⟨[], [], [], ".quail"⟩

/-- A task callable returning the string `"hi"`. -/
def fixHiFn : TaskFn := fun _ c => (c, Except.ok (Value.vstr "hi"))

/-! Claim C1: are checks memoized like tasks? -/

/-- A task whose dict result merges an artifact under the id `"c1"`. -/
def fixC1_t1fn : TaskFn := fun _ c =>
  (c, Except.ok (Value.vdict [("c1", Value.vstr "cached")]))

/-- A check callable returning a fresh `status="fail"` result. -/
def fixC1_c1fn : CheckFn := fun _ c =>
  let p := CheckResult.init "c1" "fail" "error" [] none none none none c
  (p.2, Except.ok p.1)

/-- Registry: task `t1` (merges an artifact keyed `"c1"`), check `c1`
requiring `t1`. -/
def fixC1_reg : Registry :=
  qcheck_register (some "c1") ["t1"] "error" "c1" fixC1_c1fn
    (qtask_register (some "t1") [] "t1" fixC1_t1fn Registry.empty)

/-- A context whose artifact store already holds the id `"t"`. -/
def fixC1_ctxCached : QContext :=
  ⟨[], [], [("t", Value.vstr "cached")], ".quail"⟩

/-- Claim C1 is false on the code: running `["c1"]` first runs `t1`, whose
dict result leaves an artifact under `"c1"`; the check wrapper nevertheless
invokes `c1`'s callable (it appears in the invocation trace) and surfaces
the fresh `"fail"` result, not the cached artifact — `qcheck` has no
`ctx.has` memoization guard. -/
theorem C1_counterexample :
    (Runner.run runner0 fixC1_reg ["t1"] false 0).ctxHas "c1" = some true ∧
    (Runner.run runner0 fixC1_reg ["c1"] false 0).trace = ["t1", "c1"] ∧
    (Runner.run runner0 fixC1_reg ["c1"] false 0).statusOf "c1" =
      some "fail" := by
  exact ⟨rfl, rfl, rfl⟩

/-- Amended C1: only tasks are memoized.  The `qcheck` wrapper invokes its
callable unconditionally (the ghost trace always grows by `rid`), while the
`qtask` wrapper returns the cached artifact untouched whenever
`ctx.has rid` holds. -/
theorem C1_amended :
    (∀ rid sev f ctx c tr,
      (checkWrapper rid sev f ctx c tr).trace = tr ++ [rid]) ∧
    (∀ rid f ctx c tr, ctx.has rid = true →
      taskWrapper rid f ctx c tr =
        { ctx := ctx, clock := c, trace := tr,
          val := Except.ok (ctx.get rid) }) := by
  constructor
  · intro rid sev f ctx c tr
    unfold checkWrapper tick
    rcases h : f ctx (c + 1) with ⟨c2, v⟩
    cases v <;> simp [h, CheckResult.init, pyOptOrTime, pyOrTime, tick]
  · intro rid f ctx c tr h
    simp [taskWrapper, h]

/-- Witness for the amended C1 at concrete inputs. -/
theorem C1_amended_witness :
    (checkWrapper "c" "error" fixC1_c1fn ctx0 0 []).trace = [] ++ ["c"] ∧
    taskWrapper "t" fixC1_t1fn fixC1_ctxCached 0 [] =
      { ctx := fixC1_ctxCached, clock := 0, trace := [],
        val := Except.ok (fixC1_ctxCached.get "t") } :=
  ⟨C1_amended.1 "c" "error" fixC1_c1fn ctx0 0 [],
   C1_amended.2 "t" fixC1_t1fn fixC1_ctxCached 0 [] rfl⟩

/-! Claim C5: does registration reject duplicate ids? -/

/-- Registry built by registering the task id `"a"` twice, first with no
requirements and then requiring `"x"`. -/
def fixC5_reg : Registry :=
  qtask_register (some "a") ["x"] "a" fixHiFn
    (qtask_register (some "a") [] "a" fixHiFn Registry.empty)

/-- Claim C5 is false on the code: re-registering id `"a"` raises nothing
and silently replaces the stored descriptor (its `requires` list is now the
second registration's `["x"]`, and the mapping still has a single entry). -/
theorem C5_counterexample :
    (dlookup fixC5_reg.tasks "a").map Node.requires = some ["x"] ∧
    fixC5_reg.tasks.length = 1 := by
  exact ⟨rfl, rfl⟩

/-- Amended C5: registration is a plain dict assignment that never fails —
the latest registration of an id unconditionally becomes the stored
descriptor, and neither decorator consults (or touches) the other kind's
mapping, so a task and a check may even share an id. -/
theorem C5_amended (reg : Registry) (id : Option String)
    (reqs : List String) (name : String) (f : TaskFn) (sev : String)
    (cf : CheckFn) :
    dlookup (qtask_register id reqs name f reg).tasks (ridOf id name) =
      some ⟨ridOf id name, reqs, NodeFn.task f⟩ ∧
    (qtask_register id reqs name f reg).checks = reg.checks ∧
    dlookup (qcheck_register id reqs sev name cf reg).checks
        (ridOf id name) =
      some ⟨ridOf id name, reqs, NodeFn.check sev cf⟩ ∧
    (qcheck_register id reqs sev name cf reg).tasks = reg.tasks := by
  refine ⟨?_, rfl, ?_, rfl⟩ <;>
    simp [qtask_register, qcheck_register, dlookup_dictPut_self]

/-! Claim C6: can a check callable override its declared id / severity? -/

/-- A check callable returning a result that carries its own id
`"imposter"` and severity `"info"`. -/
def fixC6_fn : CheckFn := fun _ c =>
  let p := CheckResult.init "imposter" "pass" "info" [] none none none none c
  (p.2, Except.ok p.1)

/-- Registry: the single check is declared with id `"c6"` and severity
`"error"`. -/
def fixC6_reg : Registry :=
  qcheck_register (some "c6") [] "error" "c6" fixC6_fn Registry.empty

/-- Claim C6 is false on the code: the wrapper's `res.id = res.id or rid`
and `res.severity = res.severity or severity` only fill falsy fields, so
the callable's non-empty `"imposter"` / `"info"` survive normalization in
place of the declared `"c6"` / `"error"`. -/
theorem C6_counterexample :
    (Runner.run runner0 fixC6_reg ["c6"] false 0).cidOf "c6" =
      some "imposter" ∧
    (Runner.run runner0 fixC6_reg ["c6"] false 0).severityOf "c6" =
      some "info" ∧
    "imposter" ≠ "c6" ∧ "info" ≠ "error" := by
  exact ⟨rfl, rfl, by decide, by decide⟩

/-- Amended C6: the declared id / severity are only defaults — the
normalized result carries the declared value exactly when the callable left
the field empty, and otherwise keeps whatever the callable set. -/
theorem C6_amended (rid sev : String) (f : CheckFn) (ctx : QContext)
    (c c2 : Nat) (tr : List String) (res : CheckResult)
    (hf : f ctx (c + 1) = (c2, Except.ok res)) :
    (checkWrapper rid sev f ctx c tr).res.id =
      (if res.id = "" then rid else res.id) ∧
    (checkWrapper rid sev f ctx c tr).res.severity =
      (if res.severity = "" then sev else res.severity) := by
  unfold checkWrapper tick
  simp [hf, pyOrStr, pyOrTime]

/-- Witness for the amended C6: the `fixC6_fn` callable, invoked from a
fresh context at clock 0, returns non-empty fields that survive. -/
theorem C6_amended_witness :
    (checkWrapper "c6" "error" fixC6_fn ctx0 0 []).res.id =
      (if "imposter" = "" then "c6" else "imposter") ∧
    (checkWrapper "c6" "error" fixC6_fn ctx0 0 []).res.severity =
      (if "info" = "" then "error" else "info") :=
  C6_amended "c6" "error" fixC6_fn ctx0 0 3
    [] ⟨"imposter", "pass", "info", [], none, none, 2, 3⟩ rfl

/-! Claim C7: is an out-of-range status coerced to `error` everywhere? -/

/-- A check callable returning the out-of-range status `"bogus"`. -/
def fixC7_fn : CheckFn := fun _ c =>
  let p := CheckResult.init "c7" "bogus" "error" [] none none none none c
  (p.2, Except.ok p.1)

/-- Registry containing only the `"bogus"`-status check. -/
def fixC7_reg : Registry :=
  qcheck_register (some "c7") [] "error" "c7" fixC7_fn Registry.empty

/-- Claim C7 is false on the code: the `"bogus"` status does bump the
`error` tally bucket, but the result surfaced in the returned result map
still carries `"bogus"` — it is passed through to the caller unexamined,
not coerced. -/
theorem C7_counterexample :
    (Runner.run runner0 fixC7_reg ["c7"] false 0).statusOf "c7" =
      some "bogus" ∧
    (Runner.run runner0 fixC7_reg ["c7"] false 0).tallyOf =
      some ⟨0, 0, 0, 1⟩ ∧
    "bogus" ≠ "error" := by
  exact ⟨rfl, rfl, by decide⟩

/-- Amended C7: a status outside {pass, fail, skip} (hence outside the four,
`"error"` itself landing in the same bucket) is coerced to `error` only in
the run-summary tally; the result map entry and the summary row keep the
callable's original status string. -/
theorem C7_amended (progress : Bool) (g : Graph) (n : String) (node : Node)
    (sev : String) (f : CheckFn) (st : ExecState) (res : CheckResult)
    (c2 : Nat)
    (hn : dlookup g n = some node) (hfn : node.fn = NodeFn.check sev f)
    (hf : f st.ctx (st.clock + 2) = (c2, Except.ok res))
    (hs : res.status ≠ "pass") (hs2 : res.status ≠ "fail")
    (hs3 : res.status ≠ "skip") :
    (execNode progress g n st).2.2 = none ∧
    (execNode progress g n st).1.tally =
      { st.tally with error := st.tally.error + 1 } ∧
    (∃ r2, (execNode progress g n st).1.results =
        st.results ++ [(n, RunVal.check r2)] ∧ r2.status = res.status) ∧
    (execNode progress g n st).1.rows.map SummaryRow.status =
      st.rows.map SummaryRow.status ++ [res.status] := by
  unfold execNode checkWrapper tick
  simp only [hn, hfn]
  simp [hf, Tally.bump, hs, hs2, hs3, pyOrTime, pyOrNat, tick]

/-- Witness for the amended C7 at the `"bogus"` fixture. -/
theorem C7_amended_witness :
    (execNode true fixC7_reg.graph "c7" (initExecState runner0 0)).2.2 =
      none ∧
    (execNode true fixC7_reg.graph "c7" (initExecState runner0 0)).1.tally =
      { (initExecState runner0 0).tally with
        error := (initExecState runner0 0).tally.error + 1 } ∧
    (∃ r2,
      (execNode true fixC7_reg.graph "c7"
          (initExecState runner0 0)).1.results =
        (initExecState runner0 0).results ++ [("c7", RunVal.check r2)] ∧
      r2.status =
        (⟨"c7", "bogus", "error", [], none, none, 3, 4⟩ :
          CheckResult).status) ∧
    (execNode true fixC7_reg.graph "c7"
        (initExecState runner0 0)).1.rows.map SummaryRow.status =
      (initExecState runner0 0).rows.map SummaryRow.status ++
        [(⟨"c7", "bogus", "error", [], none, none, 3, 4⟩ :
          CheckResult).status] :=
  C7_amended true fixC7_reg.graph "c7"
    ⟨"c7", [], NodeFn.check "error" fixC7_fn⟩ "error" fixC7_fn
    (initExecState runner0 0)
    ⟨"c7", "bogus", "error", [], none, none, 3, 4⟩ 4
    rfl rfl rfl (by decide) (by decide) (by decide)

/-! Claim C9: does `finished_at ≥ started_at` always hold? -/

/-- A check callable that supplies its own reversed timestamps
(`started_at = 5`, `finished_at = 3`). -/
def fixC9_fn : CheckFn := fun _ c =>
  let p :=
    CheckResult.init "c9" "pass" "error" [] none none (some 5) (some 3) c
  (p.2, Except.ok p.1)

/-- Registry containing only the reversed-timestamp check. -/
def fixC9_reg : Registry :=
  qcheck_register (some "c9") [] "error" "c9" fixC9_fn Registry.empty

/-- A check callable that leaves both timestamps unset (falsy `0`). -/
def fixC9z_fn : CheckFn := fun _ c =>
  (c, Except.ok ⟨"z", "pass", "error", [], none, none, 0, 0⟩)

/-- Claim C9 is false on the code: truthy timestamps supplied by the
callable pass through `or`-defaulting unvalidated, so the surfaced result
has `started_at = 5` and `finished_at = 3` with `finished_at < started_at`. -/
theorem C9_counterexample :
    (Runner.run runner0 fixC9_reg ["c9"] false 0).startedOf "c9" = some 5 ∧
    (Runner.run runner0 fixC9_reg ["c9"] false 0).finishedOf "c9" =
      some 3 ∧
    ¬ (5 : Nat) ≤ 3 := by
  exact ⟨rfl, rfl, by decide⟩

/-- Amended C9: `finished_at ≥ started_at` holds for every result whose
timestamps were defaulted rather than supplied — at construction when
`CheckResult.__init__` stamps both (the second `time.time()` call is not
earlier than the first), and after wrapper normalization when the callable
(clock-monotone, as every real callable is) left both fields unset or
falsy.  A callable that sets truthy timestamps itself can violate it. -/
theorem C9_amended :
    (∀ id status sev metrics d e c,
      (CheckResult.init id status sev metrics d e none none c).1.started_at
        ≤
      (CheckResult.init id status sev metrics d e none none
          c).1.finished_at) ∧
    (∀ rid sev f ctx c tr,
      (∀ ctx2 c2, c2 ≤ (f ctx2 c2).1) →
      (∀ ctx2 c2 c3 res, f ctx2 c2 = (c3, Except.ok res) →
        res.started_at = 0 ∧ res.finished_at = 0) →
      (checkWrapper rid sev f ctx c tr).res.started_at ≤
        (checkWrapper rid sev f ctx c tr).res.finished_at) := by
  constructor
  · intro id status sev metrics d e c
    simp [CheckResult.init, pyOptOrTime, tick]
  · intro rid sev f ctx c tr hmono hzero
    unfold checkWrapper tick
    rcases h : f ctx (c + 1) with ⟨c2, v⟩
    have hc : c + 1 ≤ c2 := by
      have := hmono ctx (c + 1)
      rw [h] at this
      exact this
    cases v with
    | ok res =>
      obtain ⟨h0s, h0f⟩ := hzero ctx (c + 1) c2 res h
      simp [h, h0s, h0f, pyOrNat, pyOrTime, tick]
      omega
    | error e =>
      simp [h, CheckResult.init, pyOptOrTime, pyOrTime, tick]
      omega

/-- Witness for the amended C9 at concrete inputs. -/
theorem C9_amended_witness :
    (CheckResult.init "w" "pass" "error" [] none none none
        none 0).1.started_at ≤
      (CheckResult.init "w" "pass" "error" [] none none none
        none 0).1.finished_at ∧
    (checkWrapper "z" "error" fixC9z_fn ctx0 0 []).res.started_at ≤
      (checkWrapper "z" "error" fixC9z_fn ctx0 0 []).res.finished_at :=
  ⟨C9_amended.1 "w" "pass" "error" [] none none 0,
   C9_amended.2 "z" "error" fixC9z_fn ctx0 0 []
     (fun _ c2 => Nat.le_refl c2)
     (by
       intro ctx2 c2 c3 res h
       injection h with h1 h2
       injection h2 with h3
       rw [← h3]
       exact ⟨rfl, rfl⟩)⟩

/-! Claim C3: a raising check is contained and the run continues. -/

/-- Unfolding equation for one loop iteration. -/
theorem runNodes_cons (progress : Bool) (g : Graph) (n : String)
    (rest : List String) (st : ExecState) :
    runNodes progress g (n :: rest) st =
      (match execNode progress g n st with
       | (st1, log1, some e) => (st1, log1, some e)
       | (st1, log1, none) =>
         let p := runNodes progress g rest st1
         (p.1, log1 ++ p.2.1, p.2.2)) := by
  conv_lhs => rw [runNodes]

/-- Splitting the node order splits the loop: the suffix runs on the
prefix's final state unless the prefix aborted. -/
theorem runNodes_append (progress : Bool) (g : Graph) (xs ys : List String)
    (st : ExecState) :
    runNodes progress g (xs ++ ys) st =
      (match runNodes progress g xs st with
       | (st1, log1, some e) => (st1, log1, some e)
       | (st1, log1, none) =>
         let p := runNodes progress g ys st1
         (p.1, log1 ++ p.2.1, p.2.2)) := by
  induction xs generalizing st with
  | nil => rfl
  | cons n rest ih =>
    rw [show (n :: rest) ++ ys = n :: (rest ++ ys) from rfl]
    rw [runNodes_cons, runNodes_cons]
    rcases hx : execNode progress g n st with ⟨st1, log1, err⟩
    cases err with
    | some e => rfl
    | none =>
      dsimp only
      rw [ih st1]
      rcases hr : runNodes progress g rest st1 with ⟨st2, log2, err2⟩
      cases err2 with
      | some e => rfl
      | none =>
        dsimp only
        rw [List.append_assoc]

/-- Claim C3 holds: when a check callable raises `msg`, the node's surfaced
result is a `CheckResult` with status `error`, the declared severity, and
`error = msg`; the exception never leaves the loop (the step reports no
propagating exception) and the loop goes on to run the remaining nodes. -/
theorem C3_check_exception_contained (progress : Bool) (g : Graph)
    (n : String) (node : Node) (sev msg : String) (f : CheckFn)
    (rest : List String) (st : ExecState)
    (hn : dlookup g n = some node) (hfn : node.fn = NodeFn.check sev f)
    (hf : (f st.ctx (st.clock + 2)).2 = Except.error msg) :
    (execNode progress g n st).2.2 = none ∧
    (∃ r, (execNode progress g n st).1.results =
        st.results ++ [(n, RunVal.check r)] ∧
      r.status = "error" ∧ r.severity = sev ∧ r.error = some msg) ∧
    runNodes progress g (n :: rest) st =
      (let p := runNodes progress g rest (execNode progress g n st).1
       (p.1, (execNode progress g n st).2.1 ++ p.2.1, p.2.2)) := by
  have hf2 : f st.ctx (st.clock + 2) =
      ((f st.ctx (st.clock + 2)).1, Except.error msg) := by
    rw [← hf]
  have hstep :
      (execNode progress g n st).2.2 = none ∧
      (∃ r, (execNode progress g n st).1.results =
          st.results ++ [(n, RunVal.check r)] ∧
        r.status = "error" ∧ r.severity = sev ∧ r.error = some msg) := by
    unfold execNode checkWrapper tick
    simp only [hn, hfn]
    rw [hf2]
    simp [CheckResult.init, pyOptOrTime, pyOrTime, pyOrNat, tick]
  refine ⟨hstep.1, hstep.2, ?_⟩
  rw [runNodes_cons]
  rcases hx : execNode progress g n st with ⟨st1, log1, err⟩
  have herr : err = none := by
    have h2 := hstep.1
    rw [hx] at h2
    exact h2
  subst herr
  rfl

/-- A check callable that always raises with message
`"division by zero"`. -/
def fixC3_fn : CheckFn := fun _ c => (c, Except.error "division by zero")

/-- Registry: the raising check `cz` (severity `"warning"`) and an ordinary
task `t3`. -/
def fixC3_reg : Registry :=
  qtask_register (some "t3") [] "t3" fixHiFn
    (qcheck_register (some "cz") [] "warning" "cz" fixC3_fn Registry.empty)

/-- Witness for C3 at the raising fixture. -/
theorem C3_witness :
    (execNode true fixC3_reg.graph "cz" (initExecState runner0 0)).2.2 =
      none ∧
    (∃ r, (execNode true fixC3_reg.graph "cz"
          (initExecState runner0 0)).1.results =
        (initExecState runner0 0).results ++ [("cz", RunVal.check r)] ∧
      r.status = "error" ∧ r.severity = "warning" ∧
      r.error = some "division by zero") ∧
    runNodes true fixC3_reg.graph ["cz", "t3"] (initExecState runner0 0) =
      (let p := runNodes true fixC3_reg.graph ["t3"]
        (execNode true fixC3_reg.graph "cz" (initExecState runner0 0)).1
       (p.1,
        (execNode true fixC3_reg.graph "cz"
          (initExecState runner0 0)).2.1 ++ p.2.1, p.2.2)) :=
  C3_check_exception_contained true fixC3_reg.graph "cz"
    ⟨"cz", [], NodeFn.check "warning" fixC3_fn⟩ "warning"
    "division by zero" fixC3_fn ["t3"] (initExecState runner0 0)
    rfl rfl rfl

/-! Claim C8: a raising task is fatal and aborts the rest of the run. -/

/-- Claim C8 holds: if the order reaches a task node whose id has no cached
artifact and whose callable raises `msg`, the whole `run` returns that
exception (it is never converted into a result entry) and the ghost trace
ends at the failing task — no node after it in the order is executed. -/
theorem C8_task_exception_fatal (r : Runner) (reg : Registry)
    (targets : List String) (par : Bool) (c0 : Nat) (pre post : List String)
    (n : String) (node : Node) (f : TaskFn) (msg : String)
    (st1 : ExecState) (logPre : List LogMsg)
    (htopo : topo reg.graph targets = Except.ok (pre ++ n :: post))
    (hpre : runNodes r.progress reg.graph pre (initExecState r c0) =
      (st1, logPre, none))
    (hn : dlookup reg.graph n = some node) (hfn : node.fn = NodeFn.task f)
    (hmemo : st1.ctx.has node.id = false)
    (hf : (f st1.ctx (st1.clock + 1)).2 = Except.error msg) :
    (Runner.run r reg targets par c0).out =
      Except.error (RunErr.raised msg) ∧
    (Runner.run r reg targets par c0).trace = st1.trace ++ [node.id] ∧
    (Runner.run r reg targets par c0).trace.count n =
      (st1.trace ++ [node.id]).count n := by
  have hf2 : f st1.ctx (st1.clock + 1) =
      ((f st1.ctx (st1.clock + 1)).1, Except.error msg) := by
    rw [← hf]
  have hstep : ∃ log1,
      execNode r.progress reg.graph n st1 =
        ({ st1 with
            ctx := st1.ctx
            clock := (f st1.ctx (st1.clock + 1)).1
            trace := st1.trace ++ [node.id] }, log1, some msg) := by
    unfold execNode taskWrapper tick
    simp only [hn, hfn]
    rw [hmemo]
    simp only [Bool.false_eq_true, if_false]
    rw [hf2]
    exact ⟨_, rfl⟩
  obtain ⟨log1, hstep⟩ := hstep
  have hstep2 : runNodes r.progress reg.graph (n :: post) st1 =
      ({ st1 with
          ctx := st1.ctx
          clock := (f st1.ctx (st1.clock + 1)).1
          trace := st1.trace ++ [node.id] }, log1, some msg) := by
    rw [runNodes_cons, hstep]
  have hloop : runNodes r.progress reg.graph (pre ++ n :: post)
      (initExecState r c0) =
      ({ st1 with
          ctx := st1.ctx
          clock := (f st1.ctx (st1.clock + 1)).1
          trace := st1.trace ++ [node.id] }, logPre ++ log1, some msg) := by
    rw [runNodes_append, hpre]
    dsimp only
    rw [hstep2]
  simp only [Runner.run]
  rw [htopo]
  dsimp only
  rw [hloop]
  exact ⟨rfl, rfl, rfl⟩

/-- A task callable that always raises with message `"boom msg"`. -/
def fixC8_fn : TaskFn := fun _ c => (c, Except.error "boom msg")

/-- Registry: the raising task `boom` and the ordinary task `t2`. -/
def fixC8_reg : Registry :=
  qtask_register (some "t2") [] "t2" fixHiFn
    (qtask_register (some "boom") [] "boom" fixC8_fn Registry.empty)

/-- Witness for C8: running `["boom", "t2"]` aborts at `boom`; `t2` (later
in the order) is never invoked. -/
theorem C8_witness :
    (Runner.run runner0 fixC8_reg ["boom", "t2"] false 0).out =
      Except.error (RunErr.raised "boom msg") ∧
    (Runner.run runner0 fixC8_reg ["boom", "t2"] false 0).trace =
      (initExecState runner0 0).trace ++ ["boom"] ∧
    (Runner.run runner0 fixC8_reg ["boom", "t2"] false 0).trace.count
        "boom" =
      ((initExecState runner0 0).trace ++ ["boom"]).count "boom" :=
  C8_task_exception_fatal runner0 fixC8_reg ["boom", "t2"] false 0 []
    ["t2"] "boom" ⟨"boom", [], NodeFn.task fixC8_fn⟩ fixC8_fn "boom msg"
    (initExecState runner0 0) [] rfl rfl rfl rfl rfl rfl

/-! Claim C10: `parallel=True` only adds a warning. -/

/-- Claim C10 holds: for every runner, registry and target list, a run with
`parallel=True` has the same outcome (result map or error), the same node
executions in the same order (equal traces), and the same log except for
the single leading not-implemented warning. -/
theorem C10_parallel_flag_no_effect (r : Runner) (reg : Registry)
    (targets : List String) (c0 : Nat) :
    (Runner.run r reg targets true c0).out =
      (Runner.run r reg targets false c0).out ∧
    (Runner.run r reg targets true c0).trace =
      (Runner.run r reg targets false c0).trace ∧
    (Runner.run r reg targets true c0).log =
      say r.progress LogMsg.parallelWarning ++
        (Runner.run r reg targets false c0).log := by
  unfold Runner.run
  cases htopo : topo reg.graph targets with
  | error e => simp [htopo]
  | ok order =>
    rcases hr : runNodes r.progress reg.graph order (initExecState r c0)
      with ⟨st, logB, err⟩
    cases err <;> simp [htopo, hr]

/-! Claim C2 / C4: correctness of the DFS resolver `Runner._topo`. -/

/-- One dependency edge of the combined graph: registered node `a` lists
`b` in its `requires`. -/
def depG (g : Graph) (a b : String) : Prop :=
  ∃ nd, dlookup g a = some nd ∧ b ∈ nd.requires

/-- Reflexive-transitive reachability along `requires` edges. -/
inductive Reach (g : Graph) : String → String → Prop where
  | refl (n : String) : Reach g n n
  | step {a b c : String} : depG g a b → Reach g b c → Reach g a c

/-- A successful `dlookup` exhibits a member of the association list. -/
theorem dlookup_mem {α : Type} (d : List (String × α)) (k : String) (v : α)
    (h : dlookup d k = some v) : (k, v) ∈ d := by
  induction d with
  | nil => simp [dlookup] at h
  | cons hd tl ih =>
    rcases hd with ⟨k', v'⟩
    by_cases hk : k' = k
    · subst hk
      simp [dlookup] at h
      simp [h]
    · simp [dlookup, hk] at h
      exact List.mem_cons_of_mem _ (ih h)

/-- Reachability stays inside any dependency-closed predicate. -/
theorem reach_closed (g : Graph) (P : String → Prop)
    (hP : ∀ a, P a → ∀ d, depG g a d → P d) :
    ∀ a b, Reach g a b → P a → P b := by
  intro a b h
  induction h with
  | refl n => exact id
  | step hd _ ih => exact fun hpa => ih (hP _ hpa _ hd)

/-- A rank function decreasing along edges is non-increasing along
reachability. -/
theorem reach_rank_le (g : Graph) (rank : String → Nat)
    (hrank : ∀ a b, depG g a b → rank b < rank a) :
    ∀ a b, Reach g a b → rank b ≤ rank a := by
  intro a b h
  induction h with
  | refl n => exact Nat.le_refl _
  | step hd _ ih => exact Nat.le_trans ih (Nat.le_of_lt (hrank _ _ hd))

/-- Topological sortedness of an output list: at every position, each
dependency of the node there appears strictly earlier. -/
def SortedOut (g : Graph) (out : List String) : Prop :=
  ∀ pre m post, out = pre ++ m :: post → ∀ d, depG g m d → d ∈ pre

/-- The empty output is sorted. -/
theorem sortedOut_nil (g : Graph) : SortedOut g [] := by
  intro pre m post h
  cases pre <;> simp at h

/-- Appending a node whose dependencies are already present preserves
sortedness. -/
theorem sortedOut_append (g : Graph) (out : List String) (n : String)
    (h1 : SortedOut g out) (h2 : ∀ d, depG g n d → d ∈ out) :
    SortedOut g (out ++ [n]) := by
  intro pre m post heq d hd
  induction post using List.reverseRecOn with
  | nil =>
    obtain ⟨hpre, hm⟩ := List.append_inj' heq rfl
    obtain hm2 : n = m := by simpa using hm
    subst hm2
    subst hpre
    exact h2 d hd
  | append_singleton post2 lastEl _ih =>
    have heq2 : out ++ [n] = (pre ++ m :: post2) ++ [lastEl] := by
      rw [heq]
      simp
    obtain ⟨hout, hlast⟩ := List.append_inj' heq2 rfl
    exact h1 pre m post2 hout d hd

/-- The full invariant carried through a DFS visit: `seen` and `out` hold
the same ids, `out` is duplicate-free and topologically sorted, and `seen`
is a dependency-closed set of registered ids. -/
structure TopoInv (g : Graph) (st : TopoState) : Prop where
  seen_out : ∀ m, m ∈ st.seen ↔ m ∈ st.out
  nodup : st.out.Nodup
  known : ∀ m ∈ st.seen, (dlookup g m).isSome
  closed : ∀ m ∈ st.seen, ∀ d, depG g m d → d ∈ st.seen
  sorted : SortedOut g st.out

/-- The invariant holds in the initial state. -/
theorem topoInv_start (g : Graph) : TopoInv g ⟨[], []⟩ := by
  refine ⟨by simp, List.nodup_nil, by simp, by simp, sortedOut_nil g⟩

/-- Postcondition of a successful visit of `n`: invariant preserved, `seen`
only grows, `out` only extended, `n` now seen, and everything newly seen is
reachable from `n`. -/
structure VisitOk (g : Graph) (start target : TopoState) (n : String) :
    Prop where
  inv : TopoInv g target
  mono : ∀ m ∈ start.seen, m ∈ target.seen
  ext : ∃ Δ, target.out = start.out ++ Δ
  mem : n ∈ target.seen
  reach : ∀ m ∈ target.seen, m ∈ start.seen ∨ Reach g n m

/-- Postcondition of a successful sweep over a list of ids (the loop over a
node's `requires`, and also the loop over the targets). -/
structure SweepOk (g : Graph) (ds : List String) (start target : TopoState) :
    Prop where
  inv : TopoInv g target
  mono : ∀ m ∈ start.seen, m ∈ target.seen
  ext : ∃ Δ, target.out = start.out ++ Δ
  mem : ∀ d ∈ ds, d ∈ target.seen
  reach : ∀ m ∈ target.seen, m ∈ start.seen ∨ ∃ d ∈ ds, Reach g d m

/-- The requires-loop succeeds, preserves the invariant and visits every
listed id, provided the abstract `vis` (the fuel-instantiated recursive
visit) does so for each of them. -/
theorem visitReqs_ok (g : Graph) (P : String → Prop)
    (vis : String → TopoState → Except TopoErr TopoState)
    (hvis : ∀ d st, P d → (dlookup g d).isSome → TopoInv g st →
      ∃ st', vis d st = Except.ok st' ∧ VisitOk g st st' d) :
    ∀ (n0 : String) (ds : List String) (st : TopoState),
      (∀ d ∈ ds, P d) → (∀ d ∈ ds, (dlookup g d).isSome) → TopoInv g st →
      ∃ st', visitReqs g vis n0 ds st = Except.ok st' ∧
        SweepOk g ds st st' := by
  intro n0 ds
  induction ds with
  | nil =>
    intro st _ _ hinv
    exact ⟨st, rfl,
      ⟨hinv, fun m hm => hm, ⟨[], by simp⟩, by simp, fun m hm => Or.inl hm⟩⟩
  | cons d ds ih =>
    intro st hP hk hinv
    have hkd : (dlookup g d).isSome := hk d (List.mem_cons_self d ds)
    obtain ⟨st1, hv1, hp1⟩ :=
      hvis d st (hP d (List.mem_cons_self d ds)) hkd hinv
    obtain ⟨st2, hv2, hp2⟩ := ih st1
      (fun d2 hd2 => hP d2 (List.mem_cons_of_mem d hd2))
      (fun d2 hd2 => hk d2 (List.mem_cons_of_mem d hd2)) hp1.inv
    refine ⟨st2, ?_, ?_⟩
    · show visitReqs g vis n0 (d :: ds) st = Except.ok st2
      unfold visitReqs
      rw [if_pos hkd, hv1]
      exact hv2
    · refine ⟨hp2.inv, fun m hm => hp2.mono m (hp1.mono m hm), ?_, ?_, ?_⟩
      · obtain ⟨e1, he1⟩ := hp1.ext
        obtain ⟨e2, he2⟩ := hp2.ext
        exact ⟨e1 ++ e2, by rw [he2, he1, List.append_assoc]⟩
      · intro x hx
        rcases List.mem_cons.mp hx with rfl | hx2
        · exact hp2.mono x hp1.mem
        · exact hp2.mem x hx2
      · intro m hm
        rcases hp2.reach m hm with hm1 | ⟨d2, hd2, hr⟩
        · rcases hp1.reach m hm1 with hm0 | hr
          · exact Or.inl hm0
          · exact Or.inr ⟨d, List.mem_cons_self d ds, hr⟩
        · exact Or.inr ⟨d2, List.mem_cons_of_mem d hd2, hr⟩

/-- With enough fuel (any bound above the node's rank in an acyclic graph
whose requires all resolve), `visit` succeeds and satisfies the DFS
postcondition. -/
theorem visit_ok (g : Graph) (rank : String → Nat)
    (hrank : ∀ p ∈ g, ∀ d ∈ (Prod.snd p).requires, rank d < rank p.1)
    (hwf : ∀ p ∈ g, ∀ d ∈ (Prod.snd p).requires, (dlookup g d).isSome) :
    ∀ (fuel : Nat) (n : String) (st : TopoState), rank n < fuel →
      (dlookup g n).isSome → TopoInv g st →
      ∃ st', visit g fuel n st = Except.ok st' ∧ VisitOk g st st' n := by
  have hrank2 : ∀ a b, depG g a b → rank b < rank a := by
    rintro a b ⟨nd, hlk, hm⟩
    exact hrank (a, nd) (dlookup_mem g a nd hlk) b hm
  intro fuel
  induction fuel with
  | zero => intro n st h _ _; exact absurd h (Nat.not_lt_zero _)
  | succ fuel ih =>
    intro n st hfuel hknown hinv
    by_cases hseen : n ∈ st.seen
    · refine ⟨st, ?_, ?_⟩
      · unfold visit
        rw [if_pos hseen]
      · exact ⟨hinv, fun m hm => hm, ⟨[], by simp⟩, hseen,
          fun m hm => Or.inl hm⟩
    · obtain ⟨node, hnode⟩ := Option.isSome_iff_exists.mp hknown
      have hmemg : (n, node) ∈ g := dlookup_mem g n node hnode
      have hreq_rank : ∀ d ∈ node.requires, rank d < fuel := by
        intro d hd
        have h1 : rank d < rank n := hrank (n, node) hmemg d hd
        omega
      have hreq_known : ∀ d ∈ node.requires, (dlookup g d).isSome :=
        fun d hd => hwf (n, node) hmemg d hd
      obtain ⟨st1, hreqs, hp1⟩ := visitReqs_ok g (fun d => rank d < fuel)
        (visit g fuel) ih n node.requires st hreq_rank hreq_known hinv
      have hdepn : ∀ d, depG g n d → d ∈ st1.seen := by
        rintro d ⟨nd, hnd, hdm⟩
        rw [hnode] at hnd
        injection hnd with hnd
        subst hnd
        exact hp1.mem d hdm
      have hnot : n ∉ st1.seen := by
        intro hn1
        rcases hp1.reach n hn1 with h | ⟨d, hd, hr⟩
        · exact hseen h
        · have h1 : rank n ≤ rank d := reach_rank_le g rank hrank2 d n hr
          have h2 : rank d < rank n := hrank2 n d ⟨node, hnode, hd⟩
          omega
      have hnout : n ∉ st1.out := fun h => hnot ((hp1.inv.seen_out n).mpr h)
      refine ⟨⟨n :: st1.seen, st1.out ++ [n]⟩, ?_, ?_⟩
      · unfold visit
        rw [if_neg hseen, hnode]
        dsimp only
        rw [hreqs]
      · refine ⟨⟨?_, ?_, ?_, ?_, ?_⟩, ?_, ?_, ?_, ?_⟩
        · intro m
          simp only [List.mem_cons, List.mem_append, List.mem_singleton]
          rw [hp1.inv.seen_out m]
          tauto
        · refine List.Nodup.append hp1.inv.nodup (List.nodup_singleton n) ?_
          intro a ha hb
          rw [List.mem_singleton] at hb
          subst hb
          exact hnout ha
        · intro m hm
          rcases List.mem_cons.mp hm with rfl | hm2
          · exact hknown
          · exact hp1.inv.known m hm2
        · intro m hm d hd
          rcases List.mem_cons.mp hm with rfl | hm2
          · exact List.mem_cons_of_mem _ (hdepn d hd)
          · exact List.mem_cons_of_mem _ (hp1.inv.closed m hm2 d hd)
        · exact sortedOut_append g st1.out n hp1.inv.sorted
            (fun d hd => (hp1.inv.seen_out d).mp (hdepn d hd))
        · exact fun m hm => List.mem_cons_of_mem _ (hp1.mono m hm)
        · obtain ⟨e1, he1⟩ := hp1.ext
          exact ⟨e1 ++ [n], by rw [he1, List.append_assoc]⟩
        · exact List.mem_cons_self _ _
        · intro m hm
          rcases List.mem_cons.mp hm with rfl | hm2
          · exact Or.inr (Reach.refl m)
          · rcases hp1.reach m hm2 with h | ⟨d, hd, hr⟩
            · exact Or.inl h
            · exact Or.inr (Reach.step ⟨node, hnode, hd⟩ hr)

/-- The driver loop over the targets succeeds under the same conditions,
with the same postcondition as the requires-loop. -/
theorem topoTargets_ok (g : Graph) (P : String → Prop)
    (vis : String → TopoState → Except TopoErr TopoState)
    (hvis : ∀ d st, P d → (dlookup g d).isSome → TopoInv g st →
      ∃ st', vis d st = Except.ok st' ∧ VisitOk g st st' d) :
    ∀ (ts : List String) (st : TopoState),
      (∀ t ∈ ts, P t) → (∀ t ∈ ts, (dlookup g t).isSome) → TopoInv g st →
      ∃ st', topoTargets g vis ts st = Except.ok st' ∧
        SweepOk g ts st st' := by
  intro ts
  induction ts with
  | nil =>
    intro st _ _ hinv
    exact ⟨st, rfl,
      ⟨hinv, fun m hm => hm, ⟨[], by simp⟩, by simp, fun m hm => Or.inl hm⟩⟩
  | cons t ts ih =>
    intro st hP hk hinv
    have hkt : (dlookup g t).isSome := hk t (List.mem_cons_self t ts)
    obtain ⟨st1, hv1, hp1⟩ :=
      hvis t st (hP t (List.mem_cons_self t ts)) hkt hinv
    obtain ⟨st2, hv2, hp2⟩ := ih st1
      (fun t2 ht2 => hP t2 (List.mem_cons_of_mem t ht2))
      (fun t2 ht2 => hk t2 (List.mem_cons_of_mem t ht2)) hp1.inv
    refine ⟨st2, ?_, ?_⟩
    · show topoTargets g vis (t :: ts) st = Except.ok st2
      unfold topoTargets
      rw [if_pos hkt, hv1]
      exact hv2
    · refine ⟨hp2.inv, fun m hm => hp2.mono m (hp1.mono m hm), ?_, ?_, ?_⟩
      · obtain ⟨e1, he1⟩ := hp1.ext
        obtain ⟨e2, he2⟩ := hp2.ext
        exact ⟨e1 ++ e2, by rw [he2, he1, List.append_assoc]⟩
      · intro x hx
        rcases List.mem_cons.mp hx with rfl | hx2
        · exact hp2.mono x hp1.mem
        · exact hp2.mem x hx2
      · intro m hm
        rcases hp2.reach m hm with hm1 | ⟨t2, ht2, hr⟩
        · rcases hp1.reach m hm1 with hm0 | hr
          · exact Or.inl hm0
          · exact Or.inr ⟨t, List.mem_cons_self t ts, hr⟩
        · exact Or.inr ⟨t2, List.mem_cons_of_mem t ht2, hr⟩

/-- Claim C2 holds: on an acyclic graph (witnessed by a rank function that
drops along every `requires` edge and is bounded by the graph size on the
targets) whose registered requires all resolve and whose targets are all
registered, the resolver succeeds and its output lists exactly the nodes
reachable from the targets, each exactly once, with every node's
dependencies strictly before it. -/
theorem C2_resolver_correct (g : Graph) (targets : List String)
    (rank : String → Nat)
    (hrank : ∀ p ∈ g, ∀ d ∈ (Prod.snd p).requires, rank d < rank p.1)
    (hwf : ∀ p ∈ g, ∀ d ∈ (Prod.snd p).requires, (dlookup g d).isSome)
    (htargets : ∀ t ∈ targets, (dlookup g t).isSome)
    (hbound : ∀ t ∈ targets, rank t ≤ g.length) :
    ∃ out, topo g targets = Except.ok out ∧ out.Nodup ∧
      (∀ m, m ∈ out ↔ ∃ t ∈ targets, Reach g t m) ∧
      (∀ pre m post, out = pre ++ m :: post →
        ∀ nd, dlookup g m = some nd → ∀ d ∈ nd.requires, d ∈ pre) := by
  obtain ⟨stF, hrun, hpost⟩ :=
    topoTargets_ok g (fun t => rank t < g.length + 1)
      (visit g (g.length + 1))
      (fun d st hP hk hinv =>
        visit_ok g rank hrank hwf (g.length + 1) d st hP hk hinv)
      targets ⟨[], []⟩
      (fun t ht => Nat.lt_succ_of_le (hbound t ht)) htargets
      (topoInv_start g)
  refine ⟨stF.out, ?_, hpost.inv.nodup, ?_, ?_⟩
  · unfold topo
    rw [hrun]
  · intro m
    constructor
    · intro hm
      have hms : m ∈ stF.seen := (hpost.inv.seen_out m).mpr hm
      rcases hpost.reach m hms with h | h
      · simp at h
      · exact h
    · rintro ⟨t, ht, hr⟩
      have ht2 : t ∈ stF.seen := hpost.mem t ht
      have hm : m ∈ stF.seen :=
        reach_closed g (fun x => x ∈ stF.seen)
          (fun a ha d hd => hpost.inv.closed a ha d hd) t m hr ht2
      exact (hpost.inv.seen_out m).mp hm
  · intro pre m post heq nd hnd d hd
    exact hpost.inv.sorted pre m post heq d ⟨nd, hnd, hd⟩

/-- A check callable declaring a pass verdict under the given id. -/
def passFn (id : String) : CheckFn := fun _ c =>
  let p := CheckResult.init id "pass" "error" [] none none none none c
  (p.2, Except.ok p.1)

/-- Diamond registry: task `d`; checks `a` and `b` both requiring `d`. -/
def fixC2_reg : Registry :=
  qcheck_register (some "b") ["d"] "error" "b" (passFn "b")
    (qcheck_register (some "a") ["d"] "error" "a" (passFn "a")
      (qtask_register (some "d") [] "d" fixHiFn Registry.empty))

/-- Rank function for the diamond: the shared dependency `d` sits below the
two requesting checks. -/
def fixC2_rank (n : String) : Nat := if n = "d" then 0 else 1

/-- Witness for C2 on the diamond with targets `["a", "b"]` sharing the
dependency `d`. -/
theorem C2_resolver_correct_witness :
    ∃ out, topo fixC2_reg.graph ["a", "b"] = Except.ok out ∧ out.Nodup ∧
      (∀ m, m ∈ out ↔ ∃ t ∈ ["a", "b"], Reach fixC2_reg.graph t m) ∧
      (∀ pre m post, out = pre ++ m :: post →
        ∀ nd, dlookup fixC2_reg.graph m = some nd →
          ∀ d ∈ nd.requires, d ∈ pre) := by
  have hg : fixC2_reg.graph =
      [("d", ⟨"d", [], NodeFn.task fixHiFn⟩),
       ("a", ⟨"a", ["d"], NodeFn.check "error" (passFn "a")⟩),
       ("b", ⟨"b", ["d"], NodeFn.check "error" (passFn "b")⟩)] := rfl
  refine C2_resolver_correct fixC2_reg.graph ["a", "b"] fixC2_rank ?_ ?_ ?_ ?_
  · intro p hp
    rw [hg] at hp
    simp only [List.mem_cons, List.not_mem_nil, or_false] at hp
    rcases hp with rfl | rfl | rfl
    · simp
    · intro d hd
      simp only [List.mem_singleton] at hd
      subst hd
      decide
    · intro d hd
      simp only [List.mem_singleton] at hd
      subst hd
      decide
  · intro p hp
    rw [hg] at hp
    simp only [List.mem_cons, List.not_mem_nil, or_false] at hp
    rcases hp with rfl | rfl | rfl
    · simp
    · intro d hd
      simp only [List.mem_singleton] at hd
      subst hd
      rfl
    · intro d hd
      simp only [List.mem_singleton] at hd
      subst hd
      rfl
  · intro t ht
    simp only [List.mem_cons, List.not_mem_nil, or_false] at ht
    rcases ht with rfl | rfl <;> rfl
  · intro t ht
    simp only [List.mem_cons, List.not_mem_nil, or_false] at ht
    rcases ht with rfl | rfl <;> decide

/-- Weak invariant needing no global well-formedness: everything seen is
registered, and `seen` is dependency-closed.  Maintained by every
successful visit even on graphs with unresolvable requires elsewhere. -/
structure InvW (g : Graph) (st : TopoState) : Prop where
  known : ∀ m ∈ st.seen, (dlookup g m).isSome
  closed : ∀ m ∈ st.seen, ∀ d, depG g m d → d ∈ st.seen

/-- A successful requires-loop preserves the weak invariant and leaves all
listed ids seen, provided `vis` does. -/
theorem visitReqs_invW (g : Graph)
    (vis : String → TopoState → Except TopoErr TopoState)
    (hvis : ∀ d st st', vis d st = Except.ok st' → InvW g st →
      InvW g st' ∧ (∀ m ∈ st.seen, m ∈ st'.seen) ∧ d ∈ st'.seen) :
    ∀ (n : String) (ds : List String) (st st' : TopoState),
      visitReqs g vis n ds st = Except.ok st' → InvW g st →
      InvW g st' ∧ (∀ m ∈ st.seen, m ∈ st'.seen) ∧
        (∀ d ∈ ds, d ∈ st'.seen) := by
  intro n ds
  induction ds with
  | nil =>
    intro st st' h hw
    injection h with h
    subst h
    exact ⟨hw, fun m hm => hm, by simp⟩
  | cons d ds ih =>
    intro st st' h hw
    unfold visitReqs at h
    by_cases hk : (dlookup g d).isSome
    · rw [if_pos hk] at h
      cases hv : vis d st with
      | error e =>
        rw [hv] at h
        simp at h
      | ok st1 =>
        rw [hv] at h
        dsimp only at h
        obtain ⟨hw1, hm1, hd1⟩ := hvis d st st1 hv hw
        obtain ⟨hw2, hm2, hds⟩ := ih st1 st' h hw1
        refine ⟨hw2, fun m hm => hm2 m (hm1 m hm), ?_⟩
        intro x hx
        rcases List.mem_cons.mp hx with rfl | hx2
        · exact hm2 x hd1
        · exact hds x hx2
    · rw [if_neg hk] at h
      simp at h

/-- A successful visit preserves the weak invariant and leaves the visited
node seen. -/
theorem visit_invW (g : Graph) :
    ∀ (fuel : Nat) (n : String) (st st' : TopoState),
      visit g fuel n st = Except.ok st' → InvW g st →
      InvW g st' ∧ (∀ m ∈ st.seen, m ∈ st'.seen) ∧ n ∈ st'.seen := by
  intro fuel
  induction fuel with
  | zero => intro n st st' h _; simp [visit] at h
  | succ fuel ih =>
    intro n st st' h hw
    unfold visit at h
    by_cases hseen : n ∈ st.seen
    · rw [if_pos hseen] at h
      injection h with h
      subst h
      exact ⟨hw, fun m hm => hm, hseen⟩
    · rw [if_neg hseen] at h
      cases hlk : dlookup g n with
      | none =>
        rw [hlk] at h
        simp at h
      | some node =>
        rw [hlk] at h
        dsimp only at h
        cases hr : visitReqs g (visit g fuel) n node.requires st with
        | error e =>
          rw [hr] at h
          simp at h
        | ok st1 =>
          rw [hr] at h
          dsimp only at h
          injection h with h
          obtain ⟨hw1, hm1, hds⟩ := visitReqs_invW g (visit g fuel)
            (fun d st2 st3 hv hw2 => ih d st2 st3 hv hw2)
            n node.requires st st1 hr hw
          subst h
          refine ⟨⟨?_, ?_⟩, ?_, ?_⟩
          · intro m hm
            rcases List.mem_cons.mp hm with rfl | hm2
            · rw [hlk]
              rfl
            · exact hw1.known m hm2
          · intro m hm d hd
            rcases List.mem_cons.mp hm with rfl | hm2
            · rcases hd with ⟨nd, hnd, hdm⟩
              rw [hlk] at hnd
              injection hnd with hnd
              subst hnd
              exact List.mem_cons_of_mem _ (hds d hdm)
            · exact List.mem_cons_of_mem _ (hw1.closed m hm2 d hd)
          · exact fun m hm => List.mem_cons_of_mem _ (hm1 m hm)
          · exact List.mem_cons_self _ _

/-- A successful targets-loop preserves the weak invariant and leaves every
target seen. -/
theorem topoTargets_invW (g : Graph)
    (vis : String → TopoState → Except TopoErr TopoState)
    (hvis : ∀ d st st', vis d st = Except.ok st' → InvW g st →
      InvW g st' ∧ (∀ m ∈ st.seen, m ∈ st'.seen) ∧ d ∈ st'.seen) :
    ∀ (ts : List String) (st st' : TopoState),
      topoTargets g vis ts st = Except.ok st' → InvW g st →
      InvW g st' ∧ (∀ m ∈ st.seen, m ∈ st'.seen) ∧
        (∀ t ∈ ts, t ∈ st'.seen) := by
  intro ts
  induction ts with
  | nil =>
    intro st st' h hw
    injection h with h
    subst h
    exact ⟨hw, fun m hm => hm, by simp⟩
  | cons t ts ih =>
    intro st st' h hw
    unfold topoTargets at h
    by_cases hk : (dlookup g t).isSome
    · rw [if_pos hk] at h
      cases hv : vis t st with
      | error e =>
        rw [hv] at h
        simp at h
      | ok st1 =>
        rw [hv] at h
        dsimp only at h
        obtain ⟨hw1, hm1, ht1⟩ := hvis t st st1 hv hw
        obtain ⟨hw2, hm2, hts⟩ := ih st1 st' h hw1
        refine ⟨hw2, fun m hm => hm2 m (hm1 m hm), ?_⟩
        intro x hx
        rcases List.mem_cons.mp hx with rfl | hx2
        · exact hm2 x ht1
        · exact hts x hx2
    · rw [if_neg hk] at h
      simp at h

/-- A truthful unknown-dependency error: the reported requiring node is
registered, really lists the reported id, and that id is unregistered. -/
def ErrUD (g : Graph) (e : TopoErr) : Prop :=
  ∃ d m nd, e = TopoErr.unknownDependency d m ∧ dlookup g m = some nd ∧
    d ∈ nd.requires ∧ dlookup g d = none

/-- The requires-loop either succeeds or raises a truthful
unknown-dependency error, provided `vis` does. -/
theorem visitReqs_classify (g : Graph) (P : String → Prop)
    (vis : String → TopoState → Except TopoErr TopoState)
    (hvis : ∀ d st, P d → (dlookup g d).isSome →
      (∃ st', vis d st = Except.ok st') ∨
      (∃ e, vis d st = Except.error e ∧ ErrUD g e)) :
    ∀ (n : String) (nd : Node) (ds : List String) (st : TopoState),
      dlookup g n = some nd → (∀ d ∈ ds, d ∈ nd.requires) →
      (∀ d ∈ ds, P d) →
      (∃ st', visitReqs g vis n ds st = Except.ok st') ∨
      (∃ e, visitReqs g vis n ds st = Except.error e ∧ ErrUD g e) := by
  intro n nd ds
  induction ds with
  | nil => intro st _ _ _; exact Or.inl ⟨st, rfl⟩
  | cons d ds ih =>
    intro st hnd hsub hP
    by_cases hk : (dlookup g d).isSome
    · rcases hvis d st (hP d (List.mem_cons_self d ds)) hk with
        ⟨st1, hok⟩ | ⟨e, herr, hud⟩
      · rcases ih st1 hnd (fun d2 hd2 => hsub d2 (List.mem_cons_of_mem d hd2))
            (fun d2 hd2 => hP d2 (List.mem_cons_of_mem d hd2)) with
          ⟨st2, h2⟩ | ⟨e, h2, hud⟩
        · refine Or.inl ⟨st2, ?_⟩
          unfold visitReqs
          rw [if_pos hk, hok]
          exact h2
        · refine Or.inr ⟨e, ?_, hud⟩
          unfold visitReqs
          rw [if_pos hk, hok]
          exact h2
      · refine Or.inr ⟨e, ?_, hud⟩
        unfold visitReqs
        rw [if_pos hk, herr]
    · refine Or.inr ⟨TopoErr.unknownDependency d n, ?_, ?_⟩
      · unfold visitReqs
        rw [if_neg hk]
      · exact ⟨d, n, nd, rfl, hnd, hsub d (List.mem_cons_self d ds),
          Option.not_isSome_iff_eq_none.mp hk⟩

/-- With fuel above rank, a visit of a registered node either succeeds or
raises a truthful unknown-dependency error — never `fuelOut`, never a
spurious unknown-target. -/
theorem visit_classify (g : Graph) (rank : String → Nat)
    (hrank : ∀ p ∈ g, ∀ d ∈ (Prod.snd p).requires, rank d < rank p.1) :
    ∀ (fuel : Nat) (n : String) (st : TopoState), rank n < fuel →
      (dlookup g n).isSome →
      (∃ st', visit g fuel n st = Except.ok st') ∨
      (∃ e, visit g fuel n st = Except.error e ∧ ErrUD g e) := by
  intro fuel
  induction fuel with
  | zero => intro n st h _; exact absurd h (Nat.not_lt_zero _)
  | succ fuel ih =>
    intro n st hfuel hk
    by_cases hseen : n ∈ st.seen
    · refine Or.inl ⟨st, ?_⟩
      unfold visit
      rw [if_pos hseen]
    · obtain ⟨node, hnode⟩ := Option.isSome_iff_exists.mp hk
      have hmemg := dlookup_mem g n node hnode
      have hreq_rank : ∀ d ∈ node.requires, rank d < fuel := by
        intro d hd
        have h1 : rank d < rank n := hrank (n, node) hmemg d hd
        omega
      rcases visitReqs_classify g (fun d => rank d < fuel) (visit g fuel)
          (fun d st2 hP hk2 => ih d st2 hP hk2) n node node.requires st
          hnode (fun d hd => hd) hreq_rank with ⟨st1, h1⟩ | ⟨e, h1, hud⟩
      · refine Or.inl ⟨⟨n :: st1.seen, st1.out ++ [n]⟩, ?_⟩
        unfold visit
        rw [if_neg hseen, hnode]
        dsimp only
        rw [h1]
      · refine Or.inr ⟨e, ?_, hud⟩
        unfold visit
        rw [if_neg hseen, hnode]
        dsimp only
        rw [h1]

/-- The targets-loop either succeeds or raises a truthful
unknown-dependency or unknown-target error. -/
theorem topoTargets_classify (g : Graph) (rank : String → Nat)
    (hrank : ∀ p ∈ g, ∀ d ∈ (Prod.snd p).requires, rank d < rank p.1)
    (fuel : Nat) :
    ∀ (ts : List String) (st : TopoState), (∀ t ∈ ts, rank t < fuel) →
      (∃ st', topoTargets g (visit g fuel) ts st = Except.ok st') ∨
      (∃ e, topoTargets g (visit g fuel) ts st = Except.error e ∧
        (ErrUD g e ∨
          ∃ t ∈ ts, e = TopoErr.unknownTarget t ∧ dlookup g t = none)) := by
  intro ts
  induction ts with
  | nil => intro st _; exact Or.inl ⟨st, rfl⟩
  | cons t ts ih =>
    intro st hP
    by_cases hk : (dlookup g t).isSome
    · rcases visit_classify g rank hrank fuel t st
          (hP t (List.mem_cons_self t ts)) hk with
        ⟨st1, h1⟩ | ⟨e, h1, hud⟩
      · rcases ih st1 (fun t2 ht2 => hP t2 (List.mem_cons_of_mem t ht2))
          with ⟨st2, h2⟩ | ⟨e, h2, hc⟩
        · refine Or.inl ⟨st2, ?_⟩
          unfold topoTargets
          rw [if_pos hk, h1]
          exact h2
        · refine Or.inr ⟨e, ?_, ?_⟩
          · unfold topoTargets
            rw [if_pos hk, h1]
            exact h2
          · rcases hc with h | ⟨t2, ht2, he⟩
            · exact Or.inl h
            · exact Or.inr ⟨t2, List.mem_cons_of_mem t ht2, he⟩
      · refine Or.inr ⟨e, ?_, Or.inl hud⟩
        unfold topoTargets
        rw [if_pos hk, h1]
    · refine Or.inr ⟨TopoErr.unknownTarget t, ?_, ?_⟩
      · unfold topoTargets
        rw [if_neg hk]
      · exact Or.inr ⟨t, List.mem_cons_self t ts, rfl,
          Option.not_isSome_iff_eq_none.mp hk⟩

/-- Claim C4 holds: on an acyclic registry, a target list containing an
unregistered target, or reaching a node with an unregistered requirement,
makes `run` fail with a truthful unknown-target / unknown-dependency
resolution error (the latter naming the requiring node and the missing id),
with no node callable ever invoked (empty trace) and no output surfaced. -/
theorem C4_resolution_failure (r : Runner) (reg : Registry)
    (targets : List String) (par : Bool) (c0 : Nat) (rank : String → Nat)
    (hrank : ∀ p ∈ reg.graph, ∀ d ∈ (Prod.snd p).requires,
      rank d < rank p.1)
    (hbound : ∀ t ∈ targets, rank t ≤ reg.graph.length)
    (hbad : (∃ t ∈ targets, dlookup reg.graph t = none) ∨
      (∃ t ∈ targets, ∃ n nd, Reach reg.graph t n ∧
        dlookup reg.graph n = some nd ∧
        ∃ d ∈ nd.requires, dlookup reg.graph d = none)) :
    ∃ e, (Runner.run r reg targets par c0).out =
        Except.error (RunErr.resolve e) ∧
      (Runner.run r reg targets par c0).trace = [] ∧
      ((∃ t, e = TopoErr.unknownTarget t ∧ t ∈ targets ∧
          dlookup reg.graph t = none) ∨
       (∃ d m nd, e = TopoErr.unknownDependency d m ∧
          dlookup reg.graph m = some nd ∧ d ∈ nd.requires ∧
          dlookup reg.graph d = none)) := by
  have hclass := topoTargets_classify reg.graph rank hrank
    (reg.graph.length + 1) targets ⟨[], []⟩
    (fun t ht => Nat.lt_succ_of_le (hbound t ht))
  have hnotok : ∀ st', topoTargets reg.graph
      (visit reg.graph (reg.graph.length + 1)) targets ⟨[], []⟩ ≠
      Except.ok st' := by
    intro st' hok
    obtain ⟨hw, _, hts⟩ := topoTargets_invW reg.graph _
      (fun d st2 st3 hv hw2 => visit_invW reg.graph _ d st2 st3 hv hw2)
      targets ⟨[], []⟩ st' hok ⟨by simp, by simp⟩
    rcases hbad with ⟨t, ht, hnone⟩ |
        ⟨t, ht, n, nd, hreach, hnd, d, hd, hdnone⟩
    · have hsome := hw.known t (hts t ht)
      rw [hnone] at hsome
      simp at hsome
    · have hn : n ∈ st'.seen := reach_closed reg.graph
        (fun x => x ∈ st'.seen)
        (fun a ha d2 hd2 => hw.closed a ha d2 hd2) t n hreach (hts t ht)
      have hds : d ∈ st'.seen := hw.closed n hn d ⟨nd, hnd, hd⟩
      have hsome := hw.known d hds
      rw [hdnone] at hsome
      simp at hsome
  rcases hclass with ⟨st', hok⟩ | ⟨e, herr, hc⟩
  · exact absurd hok (hnotok st')
  · have htopo : topo reg.graph targets = Except.error e := by
      unfold topo
      rw [herr]
    refine ⟨e, ?_, ?_, ?_⟩
    · simp only [Runner.run]
      rw [htopo]
    · simp only [Runner.run]
      rw [htopo]
    · rcases hc with ⟨d, m, nd, he, hnd, hdm, hdn⟩ | ⟨t, ht, he, hn⟩
      · exact Or.inr ⟨d, m, nd, he, hnd, hdm, hdn⟩
      · exact Or.inl ⟨t, he, ht, hn⟩

/-- Registry with a single check whose requirement is never registered
(spec scenario 2). -/
def fixC4_reg : Registry :=
  qcheck_register (some "c1") ["missing"] "error" "c1" (passFn "c1")
    Registry.empty

/-- Rank function for the C4 fixture. -/
def fixC4_rank (n : String) : Nat := if n = "c1" then 1 else 0

/-- Witness for C4 at the spec's concrete scenario 2: `run(["c1"])` with
`c1` requiring the never-registered `missing`. -/
theorem C4_witness :
    ∃ e, (Runner.run runner0 fixC4_reg ["c1"] false 0).out =
        Except.error (RunErr.resolve e) ∧
      (Runner.run runner0 fixC4_reg ["c1"] false 0).trace = [] ∧
      ((∃ t, e = TopoErr.unknownTarget t ∧ t ∈ ["c1"] ∧
          dlookup fixC4_reg.graph t = none) ∨
       (∃ d m nd, e = TopoErr.unknownDependency d m ∧
          dlookup fixC4_reg.graph m = some nd ∧ d ∈ nd.requires ∧
          dlookup fixC4_reg.graph d = none)) := by
  have hg : fixC4_reg.graph =
      [("c1", ⟨"c1", ["missing"],
        NodeFn.check "error" (passFn "c1")⟩)] := rfl
  refine C4_resolution_failure runner0 fixC4_reg ["c1"] false 0 fixC4_rank
    ?_ ?_ ?_
  · intro p hp
    rw [hg] at hp
    simp only [List.mem_singleton] at hp
    subst hp
    intro d hd
    simp only [List.mem_singleton] at hd
    subst hd
    decide
  · intro t ht
    simp only [List.mem_cons, List.not_mem_nil, or_false] at ht
    subst ht
    decide
  · exact Or.inr ⟨"c1", by simp, "c1",
      ⟨"c1", ["missing"], NodeFn.check "error" (passFn "c1")⟩,
      Reach.refl "c1", rfl, "missing", by simp, rfl⟩

end Quail
